import Mathlib

/-!
# Verification of the react-native-ahoy event pipeline

Shallow embedding of the repository's three source files:

* `src/lib/ahoy/ahoy.js` — the `Ahoy` class with an in-memory `eventQueue`,
  `sendTrackingInterval` dispatch loop, `saveEventQueue`/`loadEventQueue`
  persistence, non-throwing `onTrackingInvoke`/`trackInvoke`, and queue
  workers whose `onFailed` re-enqueues while offline.  Definitions from this
  variant carry an `A` suffix.
* `src/lib/storage/storage.js` — the `Storage` read/write wrapper around
  `AsyncStorage` (both layers apply `JSON.stringify`/`JSON.parse`), followed
  by a second `Ahoy` variant with `prepareProperties`, throwing
  `onTrackingInvoke`/`trackInvoke`, and workers whose `onFailed` always
  invokes the `failed` hook.  Definitions from this variant carry a `B`
  suffix.
* `src/unnamed/part_000` — the default URL transport `fetchGuard` built on
  `global.fetch`, which catches every rejection.

JavaScript's `JSON.stringify`/`JSON.parse` pair is modelled by a JSON value
type `JsValue`, a character-level encoder `encChars`, and a fuel-indexed
recursive-descent parser `parseVal`.  Numbers are modelled as integers (the
events' float timestamps round-trip in JS exactly as integers do; floating
point itself is not shallowly embedded) and the encoder escapes the two
characters `"` and `\` exactly as consistent stringify/parse pairs do.
-/

/-- JSON values, as produced/consumed by `JSON.stringify`/`JSON.parse`.
Object fields keep insertion order, as JS objects do for string keys. -/
inductive JsValue where
  | jnull : JsValue
  | jbool (b : Bool) : JsValue
  | jnum (n : Int) : JsValue
  | jstr (s : String) : JsValue
  | jarr (xs : List JsValue) : JsValue
  | jobj (fs : List (String × JsValue)) : JsValue
deriving Repr

/-- Decimal digit character for `d < 10` (catch-all `'0'` is never hit). -/
def digitChar : Nat → Char
  | 0 => '0'
  | 1 => '1'
  | 2 => '2'
  | 3 => '3'
  | 4 => '4'
  | 5 => '5'
  | 6 => '6'
  | 7 => '7'
  | 8 => '8'
  | 9 => '9'
  | _ => '0'

/-- Numeric value of a digit character. -/
def charVal (c : Char) : Nat := c.toNat - 48

/-- Decimal digits of `n`, most significant first. -/
def natDigits (n : Nat) : List Char :=
  if _h : n < 10 then [digitChar n]
  else natDigits (n / 10) ++ [digitChar (n % 10)]
decreasing_by exact Nat.div_lt_self (by omega) (by omega)

/-- Decimal rendering of an integer, as `JSON.stringify` prints it. -/
def encIntChars (n : Int) : List Char :=
  if n < 0 then '-' :: natDigits n.natAbs else natDigits n.toNat

/-- Escape a string body: `"` and `\` get a backslash, all else is raw
(the escapes `JSON.stringify` must apply for the decode to invert). -/
def escChars : List Char → List Char
  | [] => []
  | c :: cs =>
    if c = '"' then '\\' :: '"' :: escChars cs
    else if c = '\\' then '\\' :: '\\' :: escChars cs
    else c :: escChars cs

/-- A JSON string literal: quoted, escaped body. -/
def encStrChars (s : String) : List Char :=
  '"' :: (escChars s.data ++ ['"'])

mutual
/-- Character-level `JSON.stringify` (no whitespace, as JS emits). -/
def encChars : JsValue → List Char
  | .jnull => ['n', 'u', 'l', 'l']
  | .jbool true => ['t', 'r', 'u', 'e']
  | .jbool false => ['f', 'a', 'l', 's', 'e']
  | .jnum n => encIntChars n
  | .jstr s => encStrChars s
  | .jarr [] => ['[', ']']
  | .jarr (x :: xs) => '[' :: (encItemsChars (x :: xs) ++ [']'])
  | .jobj [] => ['\x7b', '\x7d']
  | .jobj (f :: fs) => '\x7b' :: (encFieldsChars (f :: fs) ++ ['\x7d'])

/-- Comma-separated encodings of array items. -/
def encItemsChars : List JsValue → List Char
  | [] => []
  | [x] => encChars x
  | x :: y :: xs => encChars x ++ ',' :: encItemsChars (y :: xs)

/-- Comma-separated `"key":value` encodings of object fields. -/
def encFieldsChars : List (String × JsValue) → List Char
  | [] => []
  | [(k, v)] => encStrChars k ++ ':' :: encChars v
  | (k, v) :: f :: fs =>
      encStrChars k ++ ':' :: encChars v ++ ',' :: encFieldsChars (f :: fs)
end

/-- `JSON.stringify` on the modelled values. -/
def encodeJsValue (v : JsValue) : String := ⟨encChars v⟩

/-- Parse a string body after the opening quote, handling the two escapes. -/
def parseStrBody : List Char → List Char → Option (String × List Char)
  | [], _ => none
  | c :: rest, acc =>
    if c = '"' then some (⟨acc.reverse⟩, rest)
    else if c = '\\' then
      match rest with
      | [] => none
      | e :: rest2 =>
        if e = '"' || e = '\\' then parseStrBody rest2 (e :: acc) else none
    else parseStrBody rest (c :: acc)

/-- Greedily take leading decimal digits. -/
def grabDigits : List Char → List Char × List Char
  | [] => ([], [])
  | c :: rest =>
    if c.isDigit then
      let p := grabDigits rest
      (c :: p.1, p.2)
    else ([], c :: rest)

/-- Numeric value of a digit list, most significant first. -/
def digitsVal (ds : List Char) : Nat :=
  ds.foldl (fun a c => 10 * a + charVal c) 0

/-- The input does not continue with a digit (so a greedy number parse
stops exactly at its end). -/
def headNotDigit : List Char → Bool
  | [] => true
  | c :: _ => !c.isDigit

mutual
/-- Fuel-indexed recursive-descent JSON parser (models `JSON.parse` on the
whitespace-free strings `JSON.stringify` produces). -/
def parseVal : Nat → List Char → Option (JsValue × List Char)
  | 0, _ => none
  | _ + 1, [] => none
  | f + 1, c :: cs =>
    if c = 'n' then
      match cs with
      | 'u' :: 'l' :: 'l' :: rest => some (.jnull, rest)
      | _ => none
    else if c = 't' then
      match cs with
      | 'r' :: 'u' :: 'e' :: rest => some (.jbool true, rest)
      | _ => none
    else if c = 'f' then
      match cs with
      | 'a' :: 'l' :: 's' :: 'e' :: rest => some (.jbool false, rest)
      | _ => none
    else if c = '"' then
      match parseStrBody cs [] with
      | some (s, rest) => some (.jstr s, rest)
      | none => none
    else if c = '[' then
      match cs with
      | [] => none
      | c2 :: cs2 =>
        if c2 = ']' then some (.jarr [], cs2) else parseArrItems f (c2 :: cs2) []
    else if c = '\x7b' then
      match cs with
      | [] => none
      | c2 :: cs2 =>
        if c2 = '\x7d' then some (.jobj [], cs2)
        else parseObjFields f (c2 :: cs2) []
    else if c = '-' then
      match grabDigits cs with
      | ([], _) => none
      | (d :: ds, rest) => some (.jnum (-(digitsVal (d :: ds) : Int)), rest)
    else if c.isDigit then
      match grabDigits (c :: cs) with
      | (ds, rest) => some (.jnum (digitsVal ds), rest)
    else none

/-- Parse the items of a non-empty array, accumulator reversed. -/
def parseArrItems : Nat → List Char → List JsValue → Option (JsValue × List Char)
  | 0, _, _ => none
  | f + 1, cs, acc =>
    match parseVal f cs with
    | none => none
    | some (v, rest) =>
      match rest with
      | [] => none
      | c :: r2 =>
        if c = ',' then parseArrItems f r2 (v :: acc)
        else if c = ']' then some (.jarr (v :: acc).reverse, r2)
        else none

/-- Parse the fields of a non-empty object, accumulator reversed. -/
def parseObjFields :
    Nat → List Char → List (String × JsValue) → Option (JsValue × List Char)
  | 0, _, _ => none
  | f + 1, cs, acc =>
    match cs with
    | '"' :: cs2 =>
      match parseStrBody cs2 [] with
      | none => none
      | some (k, r1) =>
        match r1 with
        | ':' :: r2 =>
          match parseVal f r2 with
          | none => none
          | some (v, r3) =>
            match r3 with
            | [] => none
            | c :: r4 =>
              if c = ',' then parseObjFields f r4 ((k, v) :: acc)
              else if c = '\x7d' then some (.jobj ((k, v) :: acc).reverse, r4)
              else none
        | _ => none
    | _ => none
end

/-- `JSON.parse`: run the parser with fuel `length + 1` and demand the whole
input is consumed; `none` models a thrown `SyntaxError`. -/
def parseJsValue (s : String) : Option JsValue :=
  match parseVal (s.data.length + 1) s.data with
  | some (v, []) => some v
  | _ => none

/-! ## JavaScript value helpers -/

/-- JS truthiness of a JSON value (`null`, `false`, `0` and `""` are falsy;
arrays and objects are truthy). -/
def jsTruthy : JsValue → Bool
  | .jnull => false
  | .jbool b => b
  | .jnum n => n != 0
  | .jstr s => s != ""
  | .jarr _ => true
  | .jobj _ => true

/-- Property read `v[k]` on a JSON value: objects yield the last binding of
the key (later assignments overwrite), everything else yields `undefined`,
modelled as `none`. -/
def jsGetField (v : JsValue) (k : String) : Option JsValue :=
  match v with
  | .jobj fs => fs.foldl (fun acc p => if p.1 = k then some p.2 else acc) none
  | _ => none

/-- `String(v)` coercion as `JSON.parse` applies to a non-string argument.
Only the `str` case is exercised by the queue snapshot pipeline. -/
def jsCoerceString : JsValue → String
  | .jstr s => s
  | .jnull => "null"
  | .jbool true => "true"
  | .jbool false => "false"
  | .jnum n => ⟨encIntChars n⟩
  | .jarr _ => ""
  | .jobj _ => "[object Object]"

/-- Assignment `o[k] = v` on a JS object held as an ordered field list:
overwrite the existing binding in place, else append. -/
def jsSet (o : List (String × JsValue)) (k : String) (v : JsValue) :
    List (String × JsValue) :=
  if o.any (fun p => p.1 = k) then
    o.map (fun p => if p.1 = k then (k, v) else p)
  else o ++ [(k, v)]

/-! ## Persistence: `AsyncStorage`, the `Storage` wrapper, and the queue
snapshot (`storage.js` lines 3-21, `ahoy.js` lines 107-116) -/

/-- The `AsyncStorage` key-value store: string keys to string blobs. -/
abbrev Store : Type := List (String × String)

/-- `AsyncStorage.getItem`: last written value, or absent (JS `null`). -/
def storeGet (st : Store) (k : String) : Option String :=
  st.foldl (fun acc p => if p.1 = k then some p.2 else acc) none

/-- `AsyncStorage.setItem`. -/
def storeSet (st : Store) (k : String) (v : String) : Store := st ++ [(k, v)]

/-- The fixed snapshot key `KEYS.events`.  Modelled from the spec: the
`KEYS` constant lives in `src/lib/storage/index` which is not under `src/`;
the spec only requires "a fixed key for the event-queue snapshot". -/
def KEYS_events : String := "events"

/-- `Storage.write` (storage.js line 14-20): `setItem(key,
JSON.stringify(data))` — the storage layer's own encode. -/
def storageWrite (st : Store) (k : String) (data : JsValue) : Store :=
  storeSet st k (encodeJsValue data)

/-- `Storage.read` (storage.js line 4-12): `JSON.parse(getItem(key))`.
A missing key gives JS `null` and `JSON.parse(null)` is `null`.  A parse
failure lands in a `catch` that calls the undefined `this.onError`, itself
throwing — modelled as `Except.error`. -/
def storageRead (st : Store) (k : String) : Except Unit JsValue :=
  match storeGet st k with
  | none => .ok .jnull
  | some s =>
    match parseJsValue s with
    | some v => .ok v
    | none => .error ()

/-- `saveEventQueue` (ahoy.js line 107-109): `storage.write(KEYS.events,
JSON.stringify(this.eventQueue))` — the queue layer's encode feeding the
storage layer's second encode. -/
def saveEventQueue (st : Store) (q : List JsValue) : Store :=
  storageWrite st KEYS_events (.jstr (encodeJsValue (.jarr q)))

/-- `loadEventQueue` (ahoy.js line 111-116): read the blob, return `[]` when
falsy, else `JSON.parse` it (a throw propagates to the caller). -/
def loadEventQueue (st : Store) : Except Unit JsValue :=
  match storageRead st KEYS_events with
  | .error e => .error e
  | .ok d =>
    if jsTruthy d then
      match parseJsValue (jsCoerceString d) with
      | some v => .ok v
      | none => .error ()
    else .ok (.jarr [])

/-! ## Property-key sanitization (`ahoy.js` line 175, `storage.js`
lines 210-220) -/

/-- `key.replace(/[^a-z0-9]/gi, '')` from ahoy.js `track`: keep only ASCII
letters and digits (the `i` flag covers both cases; underscore is removed). -/
def sanitizeKeyAhoy (s : String) : String :=
  ⟨s.data.filter (fun c => c.isAlphanum)⟩

/-- `name.replace(/[^a-z0-9_]/gi, '')` from storage.js `prepareProperties`:
keep ASCII letters, digits and underscore. -/
def sanitizeKeyStorage (s : String) : String :=
  ⟨s.data.filter (fun c => c.isAlphanum || c = '_')⟩

/-- Modelled from the spec: "alphanumeric + underscore only; other
characters stripped" — the sanitizer the claim's words describe, for
comparison with the two source sanitizers. -/
def specSanitizeKey (s : String) : String :=
  ⟨s.data.filter (fun c => c.isAlphanum || c = '_')⟩

/-- The `transform` call in ahoy.js `track` (line 175): build a fresh object
assigning `result[sanitizedKey] = val`, values untouched. -/
def transformPropsA (props : List (String × JsValue)) : List (String × JsValue) :=
  props.foldl (fun acc p => jsSet acc (sanitizeKeyAhoy p.1) p.2) []

/-- `(typeof val === 'boolean') ? val.toString() : val` from
`prepareProperties` (storage.js line 217). -/
def boolToStrVal : JsValue → JsValue
  | .jbool true => .jstr "true"
  | .jbool false => .jstr "false"
  | v => v

/-- `prepareProperties` (storage.js lines 210-220): start from
`{applicationBundleId}`, then assign each sanitized key, stringifying
boolean values. -/
def prepareProperties (bundleId : String) (props : List (String × JsValue)) :
    List (String × JsValue) :=
  props.foldl (fun acc p => jsSet acc (sanitizeKeyStorage p.1) (boolToStrVal p.2))
    [("applicationBundleId", JsValue.jstr bundleId)]

/-! ## Lifecycle hooks (`ahoy.js` lines 269-277, `storage.js`
lines 222-236) -/

/-- A hook slot of the `onTracking` config object: the property may be
absent, present but not a function, or a function. -/
inductive Slot where
  | absent : Slot
  | notFn : Slot
  | fn : Slot
deriving DecidableEq, Repr

/-- The `onTracking` object's five recognized callback slots. -/
structure HooksObj where
  started : Slot
  succeeded : Slot
  failure : Slot
  failed : Slot
  error : Slot
deriving DecidableEq, Repr

/-- Dynamic property lookup `onTracking[call]`; unknown names read as an
absent property. -/
def getHook (h : HooksObj) (call : String) : Slot :=
  if call = "started" then h.started
  else if call = "succeeded" then h.succeeded
  else if call = "failure" then h.failure
  else if call = "failed" then h.failed
  else if call = "error" then h.error
  else .absent

/-- `onTrackingEvents` of ahoy.js (line 37) — note `'failure'` is absent. -/
def onTrackingEventsA : List String := ["started", "succeeded", "failed", "error"]

/-- `onTrackingEvents` of the storage.js variant (line 72). -/
def onTrackingEventsB : List String :=
  ["started", "succeeded", "failure", "failed", "error"]

/-- Observable outcome of a hook invocation that returned normally. -/
inductive InvokeOut where
  | invoked : InvokeOut
  | consoleWarn : InvokeOut
  | noop : InvokeOut
deriving DecidableEq, Repr

/-- `onTrackingInvoke` of ahoy.js (lines 269-277): guarded by
`this.onTracking && onTrackingEvents.includes(call)`; a non-function slot
only logs `console.error`; nothing throws. -/
def onTrackingInvokeA (ot : Option HooksObj) (call : String) :
    Except String InvokeOut :=
  match ot with
  | some h =>
    if call ∈ onTrackingEventsA then
      match getHook h call with
      | .fn => .ok .invoked
      | _ => .ok .consoleWarn
    else .ok .noop
  | none => .ok .noop

/-- `onTrackingInvoke` of storage.js (lines 222-236): throws when
`onTracking` is absent, the name is unknown, or the slot is not a
function. -/
def onTrackingInvokeB (ot : Option HooksObj) (call : String) :
    Except String InvokeOut :=
  match ot with
  | none => .error "Please, specify onTracking"
  | some h =>
    if call ∈ onTrackingEventsB then
      match getHook h call with
      | .fn => .ok .invoked
      | _ => .error ("onTracking[" ++ call ++ "] is not a function")
    else .error ("onTracking[" ++ call ++ "] is not a function")

/-! ## Transport invocation (`ahoy.js` lines 279-295, `storage.js`
lines 238-256) -/

/-- A `trackPosts` slot: the property is a function or it is not
(`isFunction` check). -/
inductive PostSlot where
  | notFn : PostSlot
  | fn : PostSlot
deriving DecidableEq, Repr

/-- The `trackPosts` config object. -/
structure PostsObj where
  event : PostSlot
  visit : PostSlot
deriving DecidableEq, Repr

/-- The `trackUrls` config object. -/
structure UrlsObj where
  event : String
  visit : String
deriving DecidableEq, Repr

/-- `trackPosts[call]`. -/
def getPostSlot (p : PostsObj) (call : String) : PostSlot :=
  if call = "event" then p.event
  else if call = "visit" then p.visit
  else .notFn

/-- `trackUrls[call]` (unknown names are unreachable behind the
`trackEvents.includes` guard). -/
def getUrl (u : UrlsObj) (call : String) : String :=
  if call = "event" then u.event
  else if call = "visit" then u.visit
  else ""

/-- `trackEvents` (ahoy.js line 38 / storage.js line 73). -/
def trackEventsList : List String := ["event", "visit"]

/-- Observable outcome of a `trackInvoke` that resolved. -/
inductive TrackInvokeOut where
  | calledPost : TrackInvokeOut
  | calledUrl (url : String) : TrackInvokeOut
  | consoleWarn (msg : String) : TrackInvokeOut
  | skipped : TrackInvokeOut
deriving DecidableEq, Repr

/-- `trackInvoke` of ahoy.js (lines 279-295): with neither config it only
logs `console.error` and resolves; with `trackPosts` present a non-function
slot also only logs; nothing throws. -/
def trackInvokeA (posts : Option PostsObj) (urls : Option UrlsObj)
    (call : String) : Except String TrackInvokeOut :=
  match posts, urls with
  | none, none => .ok (.consoleWarn "Please, specify trackUrls or trackPosts")
  | some p, _ =>
    if call ∈ trackEventsList then
      match getPostSlot p call with
      | .fn => .ok .calledPost
      | .notFn => .ok (.consoleWarn ("trackPosts[" ++ call ++ "] is not a function"))
    else .ok .skipped
  | none, some u =>
    if call ∈ trackEventsList then .ok (.calledUrl (getUrl u call))
    else .ok .skipped

/-- `trackInvoke` of storage.js (lines 238-256): throws when neither config
is given, when the call name is unknown, and when a `trackPosts` slot is not
a function. -/
def trackInvokeB (posts : Option PostsObj) (urls : Option UrlsObj)
    (call : String) : Except String TrackInvokeOut :=
  match posts, urls with
  | none, none => .error "Please, specify trackUrls or trackPosts"
  | some p, _ =>
    if call ∈ trackEventsList then
      match getPostSlot p call with
      | .fn => .ok .calledPost
      | .notFn => .error ("trackPosts[" ++ call ++ "] is not a function")
    else .error ("Please, make sure that call is in trackEvents")
  | none, some u =>
    if call ∈ trackEventsList then .ok (.calledUrl (getUrl u call))
    else .error ("Please, make sure that call is in trackEvents")

/-! ## Events and the ahoy.js queue state -/

/-- An event as built by ahoy.js `track` (lines 170-183): note there is no
visit-id field; `time` can appear on events restored from older snapshots
(`trackEvent` line 158 checks it). -/
structure EventA where
  id : String
  timestamp : Int
  name : String
  props : List (String × JsValue)
  time : Option Int := none
deriving Repr

/-- `if (event.time) event.timestamp = event.time` (ahoy.js line 158);
`time: 0` is falsy in JS. -/
def adjustTime (e : EventA) : EventA :=
  match e.time with
  | some t => if t != 0 then { e with timestamp := t } else e
  | none => e

/-- The payload `{ event: { ...event, visit_id: this.visitId } }` handed to
`trackInvoke('event', …)` by ahoy.js `trackEvent` (lines 157-168): the visit
id is stamped from the instance state at dispatch time. -/
structure SentEventA where
  base : EventA
  visit_id : Option String
deriving Repr

/-- ahoy.js `trackEvent` payload construction. -/
def trackEventPayloadA (visitId : Option String) (e : EventA) : SentEventA :=
  ⟨adjustTime e, visitId⟩

/-- ahoy.js `track` (lines 170-183): stamps id and timestamp, sanitizes the
property keys, and returns the event synchronously — no visit-id field is
set (compare `EventA`). -/
def trackA (uuid : String) (now : Int) (name : String)
    (props : List (String × JsValue)) : EventA :=
  { id := uuid, timestamp := now, name := name, props := transformPropsA props }

/-- storage.js `track` (lines 171-187): stamps the current visit id
(`visit_id: this.visitId`) at call time. -/
structure EventB where
  id : String
  visit_id : Option String
  user_id : Option String
  _visitor_id : Option String
  _user_id : Option String
  timestamp : Int
  name : String
  properties : List (String × JsValue)
deriving Repr

/-- The storage.js `Ahoy` fields that `track`/`trackEvent`/`setVisitId`
read. -/
structure AhoyBState where
  visitId : Option String
  visitorId : Option String
  userId : Option String
  applicationBundleId : String
  hasInternetAccess : Bool
deriving Repr

/-- storage.js `track` event construction (lines 172-181). -/
def trackB (s : AhoyBState) (uuid : String) (now : Int) (name : String)
    (props : List (String × JsValue)) : EventB :=
  { id := uuid, visit_id := s.visitId, user_id := s.userId,
    _visitor_id := s.visitorId, _user_id := s.userId, timestamp := now,
    name := name,
    properties := prepareProperties s.applicationBundleId props }

/-- `setVisitId` (storage.js lines 117-130): overwrite the current visit
id. -/
def setVisitIdB (s : AhoyBState) (vid : String) : AhoyBState :=
  { s with visitId := some vid }

/-- The payload `{ event: { ...event, applicationBundleId } }` built by
storage.js `trackEvent` (lines 146-161): the spread copies `visit_id`
through unchanged; only `applicationBundleId` is added (plus the `time`
adjustment, which does not touch `visit_id`). -/
structure SentEventB where
  base : EventB
  applicationBundleId : String
deriving Repr

/-- storage.js `trackEvent` payload construction. -/
def trackEventPayloadB (s : AhoyBState) (e : EventB) : SentEventB :=
  ⟨e, s.applicationBundleId⟩

/-- `uniqBy(list, 'id')` (lodash) worker: keep the first occurrence of each
id, carrying the ids already kept. -/
def uniqByIdAux : List EventA → List String → List EventA
  | [], _ => []
  | e :: rest, seen =>
    if e.id ∈ seen then uniqByIdAux rest seen
    else e :: uniqByIdAux rest (e.id :: seen)

/-- `uniqBy(list, 'id')` (lodash): keep the first occurrence of each id
(ahoy.js line 84). -/
def uniqById (l : List EventA) : List EventA := uniqByIdAux l []

/-- The queue-restore merge in ahoy.js `init` (line 84):
`uniqBy([...loadedQueue, ...this.eventQueue], 'id')`. -/
def initMergeA (loaded current : List EventA) : List EventA :=
  uniqById (loaded ++ current)

/-- JSON form of an `EventA`, as `JSON.stringify(this.eventQueue)` encodes
its elements (field insertion order of `track`'s literal). -/
def eventToJsValueA (e : EventA) : JsValue :=
  .jobj ([("id", JsValue.jstr e.id), ("timestamp", JsValue.jnum e.timestamp),
        ("name", JsValue.jstr e.name)] ++
    (match e.time with
     | some t => [("time", JsValue.jnum t)]
     | none => []) ++
    [("properties", JsValue.jobj e.props)])

/-- The ahoy.js instance fields that `sendTrackingInterval` touches
(lines 118-155).  `sendedTracking` is assigned only in the constructor
(line 60, to `false`): line 121 writes the distinct field
`sendsTracking`. -/
structure AhoyAState where
  visitId : Option String
  hasInternetAccess : Bool
  eventQueue : List EventA
  trackedEvents : List EventA
  store : Store
  initialized : Bool
  sendedTracking : Bool
  sendsTracking : Bool
deriving Repr

/-- Observable result of one `sendTrackingInterval` cycle: the new state,
whether a delivery attempt ran, the error-hook invocations (their `error`
strings, in order), and the payloads handed to the transport. -/
structure CycleOut where
  state : AhoyAState
  attempted : Bool
  errors : List String
  delivered : List SentEventA
deriving Repr

/-- One `sendTrackingInterval` cycle (ahoy.js lines 118-155), with the
transport attempt's settlement as the `transportOk` parameter (over
`trackUrls` + the default transport it always resolves; a user-supplied
`trackPosts.event` may reject).  On the guard `hasInternetAccess &&
eventQueue.length > 0`: shift the head, report (but do not skip) duplicate
ids seen in the remaining queue or in `trackedEvents`, call `trackEvent`,
then push to `trackedEvents` and persist the shifted queue; a transport
rejection jumps to the `catch`, which reports to the error hook — the
shifted event is in neither list and nothing is persisted. -/
def sendTrackingInterval (transportOk : Bool) (s : AhoyAState) : CycleOut :=
  if s.initialized = false ∧ s.sendedTracking = true then
    ⟨s, false, [], []⟩
  else
    let s1 := { s with sendsTracking := true }
    match s1.hasInternetAccess, s1.eventQueue with
    | true, e :: rest =>
      let errs1 :=
        if rest.any (fun el => el.id = e.id) then
          ["Error Duplicate in tracking in eventQueue"]
        else []
      let errs2 :=
        if s1.trackedEvents.any (fun el => el.id = e.id) then
          ["Error Duplicate in tracking in trackedEvents"]
        else []
      if transportOk then
        ⟨{ s1 with eventQueue := rest,
                   trackedEvents := s1.trackedEvents ++ [e],
                   store := saveEventQueue s1.store (rest.map eventToJsValueA),
                   sendsTracking := false },
          true, errs1 ++ errs2, [trackEventPayloadA s1.visitId e]⟩
      else
        ⟨{ s1 with eventQueue := rest, sendsTracking := false },
          true,
          errs1 ++ errs2 ++ ["Error when try send tracking to ahoy"],
          [trackEventPayloadA s1.visitId e]⟩
    | _, _ => ⟨{ s1 with sendsTracking := false }, false, [], []⟩

/-! ## Worker failure handlers (`ahoy.js` lines 211-219 and 250-256,
`storage.js` lines 267-303) -/

/-- The state a worker's `onFailed` callback reads: the connectivity flag
and whether `this.queue` exists. -/
structure FailCtx where
  hasInternetAccess : Bool
  queueUp : Bool
deriving DecidableEq, Repr

/-- What an `onFailed` handler did: re-created the job, and/or invoked the
`failed` lifecycle hook. -/
structure OnFailedOut where
  requeued : Bool
  failedInvoked : Bool
deriving DecidableEq, Repr

/-- `onFailed` of the ahoy.js tracking worker (lines 212-219): while
offline, re-create the job (attempt count reset — the handler never reads
it) and return without touching the `failed` hook; only when online is
`failed` invoked. -/
def onFailedA (ctx : FailCtx) : OnFailedOut :=
  if ctx.hasInternetAccess = false then ⟨ctx.queueUp, false⟩
  else ⟨false, true⟩

/-- `onFailed` of the storage.js tracking worker (line 280): invoke the
`failed` hook unconditionally; nothing is re-enqueued. -/
def onFailedB (_ctx : FailCtx) : OnFailedOut := ⟨false, true⟩

/-! ## Delivery attempts under missing transport config -/

/-- Which lifecycle hook a finished queue-worker attempt fires. -/
inductive HookFired where
  | succeededH : HookFired
  | failureH : HookFired
  | errorH : HookFired
deriving DecidableEq, Repr

/-- One ahoy.js tracking-worker attempt (lines 189-224): the worker runs
`trackEvent`; since `trackInvokeA` resolved, `onSuccess` fires the
`succeeded` hook.  Returns the hook fired and the transport outcome. -/
def deliveryAttemptA (posts : Option PostsObj) (urls : Option UrlsObj) :
    HookFired × Option TrackInvokeOut :=
  match trackInvokeA posts urls "event" with
  | .ok o => (.succeededH, some o)
  | .error _ => (.failureH, none)

/-- One storage.js tracking-worker attempt (lines 267-284): offline the
worker throws `Network request failed`; online it runs `trackInvokeB`; a
rejection fires the `failure` hook via `onFailure` (and `failed` via
`onFailed` once attempts are exhausted) — never the `error` hook. -/
def deliveryAttemptB (online : Bool) (posts : Option PostsObj)
    (urls : Option UrlsObj) : HookFired :=
  if online then
    match trackInvokeB posts urls "event" with
    | .ok _ => .succeededH
    | .error _ => .failureH
  else .failureH

/-! ## The default URL transport (`src/unnamed/part_000`) -/

/-- Settlement of a JS promise. -/
inductive JsResult (α : Type) where
  | resolved (a : α) : JsResult α
  | rejectedR (e : String) : JsResult α
deriving DecidableEq, Repr

/-- `.then` on a settled promise. -/
def jthen {α β : Type} : JsResult α → (α → JsResult β) → JsResult β
  | .resolved a, f => f a
  | .rejectedR e, _ => .rejectedR e

/-- The final `.catch((err) => { console.error(err); })`: the handler logs
and returns `undefined`, so a rejection settles as resolved-`undefined`
(`none`). -/
def jcatchLog {α : Type} : JsResult α → JsResult (Option α)
  | .resolved a => .resolved (some a)
  | .rejectedR _ => .resolved none

/-- A fetch `Response`, reduced to what `parseResponse` uses: the settlement
of `resp.json()` (rejects on a non-JSON body). -/
structure FetchResponse where
  jsonResult : JsResult JsValue

/-- `getResponse = r => (r && r.response ? r.response : r)`. -/
def getResponse (r : JsValue) : JsValue :=
  if jsTruthy r then
    match jsGetField r "response" with
    | some rv => if jsTruthy rv then rv else r
    | none => r
  else r

/-- `fetchGuard` (part_000 lines 5-12): `fetch(...).then(parseResponse)
.then(getResponse).catch(console.error)`, applied to any settlement of the
underlying `fetch`. -/
def fetchGuard (fetchResult : JsResult FetchResponse) : JsResult (Option JsValue) :=
  jcatchLog
    (jthen (jthen fetchResult (fun r => r.jsonResult))
      (fun v => JsResult.resolved (getResponse v)))

/-! ## Concrete scenario data -/

/-- id-uniqueness of a queue: no two entries share a payload id. -/
def idNodup (l : List EventA) : Prop :=
  List.Pairwise (fun a b : EventA => a.id ≠ b.id) l

/-- A first event with id `"a"`. -/
def dupEventA1 : EventA := { id := "a", timestamp := 0, name := "x", props := [] }

/-- A second, distinct event with the same id `"a"`. -/
def dupEventA2 : EventA := { id := "a", timestamp := 1, name := "y", props := [] }

/-- An initialized, online ahoy.js state whose queue is the `uniqBy` merge of
two same-id events. -/
def mergedStateX : AhoyAState :=
  { visitId := some "v1", hasInternetAccess := true,
    eventQueue := initMergeA [dupEventA1] [dupEventA2], trackedEvents := [],
    store := [], initialized := true, sendedTracking := false,
    sendsTracking := false }

/-- An initialized state that is offline with a non-empty queue. -/
def offlineStateX : AhoyAState :=
  { visitId := some "v1", hasInternetAccess := false,
    eventQueue := [dupEventA1], trackedEvents := [], store := [],
    initialized := true, sendedTracking := false, sendsTracking := false }

/-- An `onTracking` object with every slot missing. -/
def allAbsentHooks : HooksObj :=
  { started := .absent, succeeded := .absent, failure := .absent,
    failed := .absent, error := .absent }

/-! # Helper lemmas -/

/-- Filtering with `p` leaves only elements satisfying `p`. -/
theorem all_filter_self (p : Char → Bool) (l : List Char) :
    (l.filter p).all p = true := by
  simp only [List.all_eq_true]
  intro a ha
  exact (List.mem_filter.mp ha).2

/-- `digitChar` always yields a decimal digit character. -/
theorem digitChar_isDigit (d : Nat) : (digitChar d).isDigit = true := by
  unfold digitChar
  split <;> decide

/-- `charVal` inverts `digitChar` on digits. -/
theorem charVal_digitChar (d : Nat) (h : d < 10) : charVal (digitChar d) = d := by
  interval_cases d <;> decide

/-- `natDigits` never yields the empty list. -/
theorem natDigits_ne_nil (n : Nat) : natDigits n ≠ [] := by
  rw [natDigits]
  split
  · simp
  · simp

/-- Every character of `natDigits n` is a decimal digit. -/
theorem natDigits_all_digit :
    ∀ (n : Nat) (c : Char), c ∈ natDigits n → c.isDigit = true := by
  intro n
  induction n using Nat.strong_induction_on with
  | _ n ih =>
    intro c hc
    rw [natDigits] at hc
    split at hc
    · simp only [List.mem_singleton] at hc
      exact hc ▸ digitChar_isDigit _
    · rename_i hge
      rcases List.mem_append.mp hc with h1 | h2
      · exact ih (n / 10) (Nat.div_lt_self (by omega) (by omega)) c h1
      · simp only [List.mem_singleton] at h2
        exact h2 ▸ digitChar_isDigit _

/-- `digitsVal` inverts `natDigits`. -/
theorem digitsVal_natDigits : ∀ n : Nat, digitsVal (natDigits n) = n := by
  intro n
  induction n using Nat.strong_induction_on with
  | _ n ih =>
    rw [natDigits]
    split
    · rename_i hlt
      simp only [digitsVal, List.foldl_cons, List.foldl_nil]
      rw [charVal_digitChar _ hlt]
      omega
    · rename_i hge
      have hrec := ih (n / 10) (Nat.div_lt_self (by omega) (by omega))
      simp only [digitsVal, List.foldl_append, List.foldl_cons, List.foldl_nil]
      simp only [digitsVal] at hrec
      rw [hrec, charVal_digitChar _ (Nat.mod_lt _ (by omega))]
      omega

/-- `grabDigits` splits a digit prefix off exactly when the remainder does
not begin with a digit. -/
theorem grabDigits_append :
    ∀ (ds rest : List Char), (∀ c ∈ ds, c.isDigit = true) →
      headNotDigit rest = true → grabDigits (ds ++ rest) = (ds, rest) := by
  intro ds
  induction ds with
  | nil =>
    intro rest _ hrest
    cases rest with
    | nil => rfl
    | cons c r =>
      simp only [headNotDigit, Bool.not_eq_true'] at hrest
      simp [grabDigits, hrest]
  | cons d ds' ih =>
    intro rest hall hrest
    have hd : d.isDigit = true := hall d (List.mem_cons_self _ _)
    have hrec := ih rest (fun c hc => hall c (List.mem_cons_of_mem _ hc)) hrest
    simp [grabDigits, hd, hrec]

/-- A digit character is none of the parser's structural characters. -/
theorem isDigit_ne_special (c : Char) (hc : c.isDigit = true) :
    c ≠ 'n' ∧ c ≠ 't' ∧ c ≠ 'f' ∧ c ≠ '"' ∧ c ≠ '[' ∧ c ≠ '\x7b' ∧
    c ≠ '-' ∧ c ≠ ']' := by
  refine ⟨fun h => ?_, fun h => ?_, fun h => ?_, fun h => ?_, fun h => ?_,
    fun h => ?_, fun h => ?_, fun h => ?_⟩ <;>
    (subst h; exact absurd hc (by decide))

/-- The string-body parser inverts the escape encoder, for any accumulator
and trailing input. -/
theorem parseStrBody_esc :
    ∀ (l acc rest : List Char),
      parseStrBody (escChars l ++ '"' :: rest) acc
        = some (⟨acc.reverse ++ l⟩, rest) := by
  intro l
  induction l with
  | nil =>
    intro acc rest
    rw [show escChars ([] : List Char) = [] from rfl, List.nil_append,
      parseStrBody.eq_def]
    simp
  | cons c cs ih =>
    intro acc rest
    by_cases h1 : c = '"'
    · subst h1
      rw [show escChars ('"' :: cs) = '\\' :: '"' :: escChars cs from rfl,
        List.cons_append, List.cons_append, parseStrBody.eq_def]
      simp [ih]
    · by_cases h2 : c = '\\'
      · subst h2
        rw [show escChars ('\\' :: cs) = '\\' :: '\\' :: escChars cs from rfl,
          List.cons_append, List.cons_append, parseStrBody.eq_def]
        simp [ih]
      · rw [show escChars (c :: cs) = c :: escChars cs from by
            simp [escChars, h1, h2],
          List.cons_append, parseStrBody.eq_def]
        simp [h1, h2, ih]

/-- Every encoding starts with a character, and never with `']'`. -/
theorem enc_head_ne_rbracket (v : JsValue) :
    ∃ c cs, encChars v = c :: cs ∧ c ≠ ']' := by
  cases v with
  | jnull => exact ⟨'n', _, rfl, by decide⟩
  | jbool b =>
    cases b
    · exact ⟨'f', _, rfl, by decide⟩
    · exact ⟨'t', _, rfl, by decide⟩
  | jnum n =>
    simp only [encChars, encIntChars]
    by_cases hn : n < 0
    · rw [if_pos hn]
      exact ⟨'-', _, rfl, by decide⟩
    · rw [if_neg hn]
      rcases hnd : natDigits n.toNat with _ | ⟨c, cs⟩
      · exact absurd hnd (natDigits_ne_nil _)
      · have hd : c.isDigit = true :=
          natDigits_all_digit _ c (hnd ▸ List.mem_cons_self _ _)
        exact ⟨c, cs, rfl, (isDigit_ne_special c hd).2.2.2.2.2.2.2⟩
  | jstr s => exact ⟨'"', _, rfl, by decide⟩
  | jarr xs =>
    cases xs
    · exact ⟨'[', _, rfl, by decide⟩
    · exact ⟨'[', _, rfl, by decide⟩
  | jobj fs =>
    cases fs
    · exact ⟨'\x7b', _, rfl, by decide⟩
    · exact ⟨'\x7b', _, rfl, by decide⟩

/-- Encodings are non-empty. -/
theorem encLen_pos (v : JsValue) : 1 ≤ (encChars v).length := by
  obtain ⟨c, cs, h, _⟩ := enc_head_ne_rbracket v
  rw [h]
  simp

/-- The parser inverts the encoder: with enough fuel, parsing an encoding
followed by any non-digit-headed remainder returns the encoded value and
the remainder — simultaneously for values, array items and object
fields, by induction on the fuel. -/
theorem parse_enc (f : Nat) :
    (∀ (v : JsValue) (rest : List Char), (encChars v).length < f →
      headNotDigit rest = true →
      parseVal f (encChars v ++ rest) = some (v, rest)) ∧
    (∀ (x : JsValue) (xs : List JsValue) (acc : List JsValue) (rest : List Char),
      (encItemsChars (x :: xs)).length + 1 < f →
      parseArrItems f (encItemsChars (x :: xs) ++ ']' :: rest) acc
        = some (.jarr (acc.reverse ++ x :: xs), rest)) ∧
    (∀ (kv : String × JsValue) (fs : List (String × JsValue))
        (acc : List (String × JsValue)) (rest : List Char),
      (encFieldsChars (kv :: fs)).length + 1 < f →
      parseObjFields f (encFieldsChars (kv :: fs) ++ '\x7d' :: rest) acc
        = some (.jobj (acc.reverse ++ kv :: fs), rest)) := by
  induction f with
  | zero =>
    refine ⟨fun v rest h _ => absurd h (by omega),
      fun x xs acc rest h => absurd h (by omega),
      fun kv fs acc rest h => absurd h (by omega)⟩
  | succ f ih =>
    obtain ⟨ih1, ih2, ih3⟩ := ih
    refine ⟨?_, ?_, ?_⟩
    · intro v rest hlen hnd
      cases v with
      | jnull =>
        rw [show encChars .jnull = ['n', 'u', 'l', 'l'] from by simp [encChars]]
        simp [parseVal]
      | jbool b =>
        cases b <;>
          (first
            | rw [show encChars (.jbool false) = ['f', 'a', 'l', 's', 'e'] from by
                simp [encChars]]
            | rw [show encChars (.jbool true) = ['t', 'r', 'u', 'e'] from by
                simp [encChars]]) <;>
          simp [parseVal]
      | jnum n =>
        rw [show encChars (.jnum n) = encIntChars n from by simp [encChars]]
        unfold encIntChars
        by_cases hn : n < 0
        · rw [if_pos hn]
          rcases hds : natDigits n.natAbs with _ | ⟨c, cs⟩
          · exact absurd hds (natDigits_ne_nil _)
          · have hall : ∀ ch ∈ natDigits n.natAbs, ch.isDigit = true :=
              fun ch hc => natDigits_all_digit _ ch hc
            have htd : grabDigits (natDigits n.natAbs ++ rest)
                = (natDigits n.natAbs, rest) := grabDigits_append _ _ hall hnd
            rw [hds] at htd
            have hdv : digitsVal (c :: cs) = n.natAbs := by
              rw [← hds]; exact digitsVal_natDigits _
            have haux : (-(digitsVal (c :: cs) : Int)) = n := by
              rw [hdv]; omega
            rw [List.cons_append]
            simp only [List.cons_append] at htd
            simp only [parseVal]
            simp [htd, haux]
        · rw [if_neg hn]
          rcases hds : natDigits n.toNat with _ | ⟨c, cs⟩
          · exact absurd hds (natDigits_ne_nil _)
          · have hall : ∀ ch ∈ natDigits n.toNat, ch.isDigit = true :=
              fun ch hc => natDigits_all_digit _ ch hc
            have htd : grabDigits (natDigits n.toNat ++ rest)
                = (natDigits n.toNat, rest) := grabDigits_append _ _ hall hnd
            rw [hds] at htd
            have hdv : ((digitsVal (c :: cs) : Int)) = n := by
              rw [show digitsVal (c :: cs) = n.toNat from by
                rw [← hds]; exact digitsVal_natDigits _]
              omega
            have hcd : c.isDigit = true := by
              rw [hds] at hall; exact hall c (List.mem_cons_self _ _)
            have hne := isDigit_ne_special c hcd
            simp only [List.cons_append] at htd
            simp only [parseVal, List.cons_append]
            simp [hne.1, hne.2.1, hne.2.2.1, hne.2.2.2.1, hne.2.2.2.2.1,
              hne.2.2.2.2.2.1, hne.2.2.2.2.2.2.1, hcd, htd, hdv]
      | jstr s =>
        simp only [encChars, encStrChars, List.cons_append, List.append_assoc,
          List.singleton_append]
        simp [parseVal, parseStrBody_esc]
      | jarr xs =>
        cases xs with
        | nil =>
          rw [show encChars (.jarr []) = ['[', ']'] from by simp [encChars]]
          simp [parseVal]
        | cons x xs =>
          obtain ⟨c0, t0, hx, hc0⟩ := enc_head_ne_rbracket x
          have hu : ∃ u, encItemsChars (x :: xs) = c0 :: u := by
            cases xs <;> simp [encItemsChars, hx]
          obtain ⟨u, hu⟩ := hu
          have hlen2 : (encItemsChars (x :: xs)).length + 1 < f := by
            rw [show encChars (.jarr (x :: xs))
                = '[' :: (encItemsChars (x :: xs) ++ [']']) from by
                  simp [encChars]] at hlen
            simp at hlen
            omega
          have hmain := ih2 x xs [] rest hlen2
          rw [show encChars (.jarr (x :: xs))
              = '[' :: (encItemsChars (x :: xs) ++ [']']) from by
                simp [encChars]]
          rw [List.cons_append, List.append_assoc, List.singleton_append]
          rw [hu] at hmain ⊢
          simp only [List.cons_append] at hmain
          rw [List.cons_append]
          simp only [parseVal]
          simp [hc0, hmain]
      | jobj fs =>
        cases fs with
        | nil =>
          rw [show encChars (.jobj []) = ['\x7b', '\x7d'] from by simp [encChars]]
          simp [parseVal]
        | cons kv fs =>
          have hu : ∃ u, encFieldsChars (kv :: fs) = '"' :: u := by
            obtain ⟨k, v⟩ := kv
            cases fs <;> simp [encFieldsChars, encStrChars]
          obtain ⟨u, hu⟩ := hu
          have hlen2 : (encFieldsChars (kv :: fs)).length + 1 < f := by
            rw [show encChars (.jobj (kv :: fs))
                = '\x7b' :: (encFieldsChars (kv :: fs) ++ ['\x7d']) from by
                  simp [encChars]] at hlen
            simp at hlen
            omega
          have hmain := ih3 kv fs [] rest hlen2
          rw [show encChars (.jobj (kv :: fs))
              = '\x7b' :: (encFieldsChars (kv :: fs) ++ ['\x7d']) from by
                simp [encChars]]
          rw [List.cons_append, List.append_assoc, List.singleton_append]
          rw [hu] at hmain ⊢
          simp only [List.cons_append] at hmain
          rw [List.cons_append]
          simp only [parseVal]
          simp [hmain]
    · intro x xs acc rest hlen
      cases xs with
      | nil =>
        rw [show encItemsChars [x] = encChars x from by simp [encItemsChars]]
        rw [show encItemsChars [x] = encChars x from by simp [encItemsChars]]
          at hlen
        have h1 := ih1 x (']' :: rest) (by omega) (by rfl)
        simp only [parseArrItems]
        rw [h1]
        simp
      | cons y ys =>
        rw [show encItemsChars (x :: y :: ys)
            = encChars x ++ ',' :: encItemsChars (y :: ys) from by
              simp [encItemsChars]]
        rw [show encItemsChars (x :: y :: ys)
            = encChars x ++ ',' :: encItemsChars (y :: ys) from by
              simp [encItemsChars]] at hlen
        have hxpos := encLen_pos x
        simp only [List.length_append, List.length_cons] at hlen
        rw [List.append_assoc, List.cons_append]
        have h1 := ih1 x (',' :: (encItemsChars (y :: ys) ++ ']' :: rest))
          (by omega) (by rfl)
        have h2 := ih2 y ys (x :: acc) rest (by omega)
        simp only [parseArrItems]
        rw [h1]
        simp [h2]
    · intro kv fs acc rest hlen
      obtain ⟨k, v⟩ := kv
      cases fs with
      | nil =>
        rw [show encFieldsChars [(k, v)]
            = encStrChars k ++ ':' :: encChars v from by
              simp [encFieldsChars]] at hlen ⊢
        rw [show encStrChars k = '"' :: (escChars k.data ++ ['"']) from rfl]
          at hlen ⊢
        simp only [List.length_append, List.length_cons, List.cons_append,
          List.append_assoc, List.singleton_append] at hlen ⊢
        have h1 := ih1 v ('\x7d' :: rest) (by omega) (by rfl)
        simp only [parseObjFields]
        rw [parseStrBody_esc]
        simp only [List.reverse_nil, List.nil_append]
        rw [show (⟨k.data⟩ : String) = k from rfl]
        rw [h1]
        simp
      | cons kv2 fs2 =>
        rw [show encFieldsChars ((k, v) :: kv2 :: fs2)
            = encStrChars k ++ ':' :: encChars v
                ++ ',' :: encFieldsChars (kv2 :: fs2) from by
              simp [encFieldsChars]] at hlen ⊢
        rw [show encStrChars k = '"' :: (escChars k.data ++ ['"']) from rfl]
          at hlen ⊢
        simp only [List.length_append, List.length_cons, List.cons_append,
          List.append_assoc, List.singleton_append] at hlen ⊢
        have hvpos := encLen_pos v
        have h1 := ih1 v
          (',' :: (encFieldsChars (kv2 :: fs2) ++ '\x7d' :: rest))
          (by omega) (by rfl)
        have h3 := ih3 kv2 fs2 ((k, v) :: acc) rest (by omega)
        simp only [parseObjFields]
        rw [parseStrBody_esc]
        simp only [List.reverse_nil, List.nil_append]
        rw [show (⟨k.data⟩ : String) = k from rfl]
        rw [h1]
        simp [h3]

/-- `JSON.parse` inverts `JSON.stringify` on every modelled JSON value. -/
theorem parseJsValue_encodeJsValue (v : JsValue) : parseJsValue (encodeJsValue v) = some v := by
  have h := (parse_enc ((encChars v).length + 1)).1 v [] (by omega) (by rfl)
  rw [List.append_nil] at h
  unfold parseJsValue encodeJsValue
  rw [show (⟨encChars v⟩ : String).data = encChars v from rfl]
  rw [h]

/-- Reading back the key just written returns the written blob. -/
theorem storeGet_storeSet (st : Store) (k x : String) :
    storeGet (storeSet st k x) k = some x := by
  unfold storeGet storeSet
  rw [List.foldl_append]
  simp

/-- Encodings are non-empty strings. -/
theorem encodeJsValue_ne_empty (v : JsValue) : encodeJsValue v ≠ "" := by
  obtain ⟨c, cs, h, _⟩ := enc_head_ne_rbracket v
  unfold encodeJsValue
  rw [h]
  intro he
  have hd := congrArg String.data he
  simp at hd

/-- Every element kept by `uniqByIdAux` comes from the input list. -/
theorem uniqByIdAux_mem :
    ∀ (l : List EventA) (seen : List String) (e : EventA),
      e ∈ uniqByIdAux l seen → e ∈ l := by
  intro l
  induction l with
  | nil => intro seen e he; simp [uniqByIdAux] at he
  | cons x rest ih =>
    intro seen e he
    by_cases hx : x.id ∈ seen
    · simp only [uniqByIdAux, if_pos hx] at he
      exact List.mem_cons_of_mem _ (ih _ _ he)
    · simp only [uniqByIdAux, if_neg hx, List.mem_cons] at he
      rcases he with h | h
      · exact h ▸ List.mem_cons_self _ _
      · exact List.mem_cons_of_mem _ (ih _ _ h)

/-- No element kept by `uniqByIdAux` has an id in `seen`. -/
theorem uniqByIdAux_not_seen :
    ∀ (l : List EventA) (seen : List String) (e : EventA),
      e ∈ uniqByIdAux l seen → e.id ∉ seen := by
  intro l
  induction l with
  | nil => intro seen e he; simp [uniqByIdAux] at he
  | cons x rest ih =>
    intro seen e he
    by_cases hx : x.id ∈ seen
    · simp only [uniqByIdAux, if_pos hx] at he
      exact ih _ _ he
    · simp only [uniqByIdAux, if_neg hx, List.mem_cons] at he
      rcases he with h | h
      · exact h ▸ hx
      · intro hs
        exact ih _ _ h (List.mem_cons_of_mem _ hs)

/-- `uniqByIdAux` output carries pairwise-distinct ids. -/
theorem uniqByIdAux_idNodup :
    ∀ (l : List EventA) (seen : List String), idNodup (uniqByIdAux l seen) := by
  intro l
  induction l with
  | nil => intro seen; exact List.Pairwise.nil
  | cons x rest ih =>
    intro seen
    by_cases hx : x.id ∈ seen
    · simp only [uniqByIdAux, if_pos hx]
      exact ih _
    · simp only [uniqByIdAux, if_neg hx]
      refine List.Pairwise.cons ?_ (ih _)
      intro b hb hxb
      exact uniqByIdAux_not_seen _ _ _ hb (hxb ▸ List.mem_cons_self _ _)

/-! # Claim theorems -/

/-- C1 (counterexample): in the storage.js variant, when a tracking job's
attempts are exhausted while the connectivity flag is `false`, `onFailed`
still invokes the terminal `failed` hook and does not re-enqueue the job —
against the claim that `failed` never fires while connectivity is false and
that the job is always requeued. -/
theorem onFailedB_fires_failed_offline :
    (onFailedB ⟨false, true⟩).failedInvoked = true ∧
    (onFailedB ⟨false, true⟩).requeued = false := ⟨rfl, rfl⟩

/-- C1 (amended): in ahoy.js, `onFailed` while offline re-creates the job
(whenever the queue exists; the handler never reads the attempt count) and
never invokes `failed`; `failed` is invoked exactly when connectivity is
true.  In storage.js, `onFailed` invokes `failed` unconditionally — also
while offline — and never re-enqueues. -/
theorem onFailed_connectivity_policy :
    ∀ b q : Bool,
      (onFailedA ⟨false, q⟩).requeued = q ∧
      (onFailedA ⟨false, q⟩).failedInvoked = false ∧
      (onFailedA ⟨b, q⟩).failedInvoked = b ∧
      (onFailedA ⟨true, q⟩).requeued = false ∧
      (onFailedB ⟨b, q⟩).failedInvoked = true ∧
      (onFailedB ⟨b, q⟩).requeued = false := by
  intro b q
  cases b <;> cases q <;> refine ⟨rfl, rfl, rfl, rfl, rfl, rfl⟩

/-- C2: a `sendTrackingInterval` cycle performs a delivery attempt exactly
when the connectivity flag is true and the pending queue is non-empty; a
cycle without an attempt leaves the pending queue, the confirmed
(`trackedEvents`) set and the persisted snapshot unchanged; an attempt
always targets the head of the queue.  The hypothesis holds in every
reachable state: `sendedTracking` is written only by the constructor
(line 60, to `false`) — line 121 writes the distinct field
`sendsTracking`. -/
theorem dispatch_attempt_iff_and_frame (tOk : Bool) (s : AhoyAState)
    (h : s.sendedTracking = false) :
    ((sendTrackingInterval tOk s).attempted
        = (s.hasInternetAccess && !s.eventQueue.isEmpty)) ∧
    ((sendTrackingInterval tOk s).attempted = false →
      (sendTrackingInterval tOk s).state.eventQueue = s.eventQueue ∧
      (sendTrackingInterval tOk s).state.trackedEvents = s.trackedEvents ∧
      (sendTrackingInterval tOk s).state.store = s.store) ∧
    ((sendTrackingInterval tOk s).attempted = true →
      (sendTrackingInterval tOk s).delivered
        = (s.eventQueue.head?.map (trackEventPayloadA s.visitId)).toList) := by
  obtain ⟨vid, net, q, te, st, ini, sed, sns⟩ := s
  simp only at h
  subst h
  unfold sendTrackingInterval
  cases net <;> cases q <;> cases tOk <;>
    simp [List.head?]

/-- C2 (witness): the theorem instantiated at the concrete offline state,
its hypothesis discharged by evaluation. -/
theorem dispatch_attempt_iff_and_frame_witness :
    ((sendTrackingInterval true offlineStateX).attempted
        = (offlineStateX.hasInternetAccess && !offlineStateX.eventQueue.isEmpty)) ∧
    ((sendTrackingInterval true offlineStateX).attempted = false →
      (sendTrackingInterval true offlineStateX).state.eventQueue
          = offlineStateX.eventQueue ∧
      (sendTrackingInterval true offlineStateX).state.trackedEvents
          = offlineStateX.trackedEvents ∧
      (sendTrackingInterval true offlineStateX).state.store = offlineStateX.store) ∧
    ((sendTrackingInterval true offlineStateX).attempted = true →
      (sendTrackingInterval true offlineStateX).delivered
        = (offlineStateX.eventQueue.head?.map
            (trackEventPayloadA offlineStateX.visitId)).toList) :=
  dispatch_attempt_iff_and_frame true offlineStateX rfl

/-- C3 (counterexample): enqueue two distinct events that share the id
`"a"` — one restored from the snapshot, one already in memory.  The
`uniqBy` merge of `init` silently drops the second, and the subsequent
dispatch cycle delivers once with zero `error`-hook invocations; the claim
demands exactly one `error` invocation. -/
theorem duplicate_enqueue_zero_errors :
    dupEventA1.id = dupEventA2.id ∧ dupEventA1.name ≠ dupEventA2.name ∧
    initMergeA [dupEventA1] [dupEventA2] = [dupEventA1] ∧
    (sendTrackingInterval true mergedStateX).errors = [] ∧
    (sendTrackingInterval true mergedStateX).delivered.length = 1 := by
  refine ⟨rfl, by decide, rfl, rfl, rfl⟩

/-- C3 (amended): the pending queue built by `init`'s `uniqBy` merge never
holds two events with the same payload id, and a dispatch cycle preserves
that invariant (the queue only shrinks); duplicate detection, however,
reports and proceeds: a cycle always delivers the head of a non-empty
queue, so the `error`-hook count for a duplicated id is not "exactly one"
(the merge path reports zero) and delivery of an id is bounded by queue
occurrences, not by one. -/
theorem queue_dedup_invariant :
    (∀ loaded current, idNodup (initMergeA loaded current)) ∧
    (∀ (tOk : Bool) (s : AhoyAState), idNodup s.eventQueue →
      idNodup (sendTrackingInterval tOk s).state.eventQueue) ∧
    (∀ (tOk : Bool) (s : AhoyAState) (e : EventA) (rest : List EventA),
      s.sendedTracking = false → s.hasInternetAccess = true →
      s.eventQueue = e :: rest →
      (sendTrackingInterval tOk s).delivered
        = [trackEventPayloadA s.visitId e]) := by
  refine ⟨fun loaded current => uniqByIdAux_idNodup _ _, ?_, ?_⟩
  · intro tOk s h
    obtain ⟨vid, net, q, te, st, ini, sed, sns⟩ := s
    unfold sendTrackingInterval
    cases hsed : sed <;> cases hini : ini <;> cases net <;> cases q <;>
      cases tOk <;> simp_all [idNodup]
  · intro tOk s e rest h1 h2 h3
    obtain ⟨vid, net, q, te, st, ini, sed, sns⟩ := s
    simp only at h1 h2 h3
    subst h1; subst h2; subst h3
    unfold sendTrackingInterval
    cases tOk <;> simp

/-- C3 (witness): the amended invariant and delivery behaviour instantiated
at the concrete merged state, hypotheses discharged by evaluation. -/
theorem queue_dedup_invariant_witness :
    idNodup (sendTrackingInterval true mergedStateX).state.eventQueue ∧
    (sendTrackingInterval true mergedStateX).delivered
      = [trackEventPayloadA mergedStateX.visitId dupEventA1] :=
  ⟨queue_dedup_invariant.2.1 true mergedStateX
      (by simp [mergedStateX, initMergeA, uniqById, uniqByIdAux, idNodup,
                dupEventA1, dupEventA2]),
   queue_dedup_invariant.2.2 true mergedStateX dupEventA1 [] rfl rfl rfl⟩

/-- C4 (counterexample): ahoy.js's `track` sanitizes keys with
`/[^a-z0-9]/gi` — the underscore is *also* stripped, so `valid_1` becomes
`valid1`, while the claim's rule (letters, digits, underscore kept) leaves
it unchanged; and storage.js's `prepareProperties` converts boolean values
to strings, so values are not always left intact. -/
theorem sanitize_underscore_counterexample :
    transformPropsA [("valid_1", JsValue.jstr "x")] = [("valid1", JsValue.jstr "x")] ∧
    specSanitizeKey "valid_1" = "valid_1" ∧
    sanitizeKeyAhoy "valid_1" ≠ specSanitizeKey "valid_1" ∧
    prepareProperties "" [("flag", JsValue.jbool true)]
      = [("applicationBundleId", JsValue.jstr ""), ("flag", JsValue.jstr "true")] := by
  refine ⟨rfl, by decide, by decide, rfl⟩

/-- C4 (amended): ahoy.js `track` keeps only ASCII letters and digits in
property keys (underscore removed too) and leaves values unchanged;
storage.js `prepareProperties` keeps letters, digits and underscore —
exactly the claim's rule — but stringifies boolean values (others
unchanged) and injects `applicationBundleId`; `"bad key!"` becomes
`"badkey"` under both. -/
theorem property_key_sanitization :
    (∀ k v, transformPropsA [(k, v)] = [(sanitizeKeyAhoy k, v)]) ∧
    (∀ s, (sanitizeKeyAhoy s).data.all (fun c => c.isAlphanum) = true) ∧
    (∀ s, (sanitizeKeyStorage s).data.all
        (fun c => c.isAlphanum || c = '_') = true) ∧
    (∀ s, sanitizeKeyStorage s = specSanitizeKey s) ∧
    (∀ bid k v, sanitizeKeyStorage k ≠ "applicationBundleId" →
      prepareProperties bid [(k, v)]
        = [("applicationBundleId", JsValue.jstr bid),
           (sanitizeKeyStorage k, boolToStrVal v)]) ∧
    sanitizeKeyAhoy "bad key!" = "badkey" ∧
    sanitizeKeyStorage "bad key!" = "badkey" := by
  refine ⟨fun k v => rfl, ?_, ?_, fun s => rfl, ?_, by decide, by decide⟩
  · intro s
    simp only [sanitizeKeyAhoy]
    exact all_filter_self _ _
  · intro s
    simp only [sanitizeKeyStorage]
    exact all_filter_self _ _
  · intro bid k v hne
    have h2 : ¬ ("applicationBundleId" = sanitizeKeyStorage k) :=
      fun he => hne he.symm
    simp [prepareProperties, jsSet, h2]

/-- C4 (witness): the `prepareProperties` shape instantiated at the spec's
own scenario key, the hypothesis discharged by evaluation. -/
theorem property_key_sanitization_witness :
    prepareProperties "bid" [("bad key!", JsValue.jstr "y")]
      = [("applicationBundleId", JsValue.jstr "bid"),
         (sanitizeKeyStorage "bad key!", boolToStrVal (JsValue.jstr "y"))] :=
  property_key_sanitization.2.2.2.2.1 "bid" "bad key!" (JsValue.jstr "y") (by decide)

/-- C5 (counterexample): in ahoy.js the delivered payload's visit id is
whatever `this.visitId` holds at *dispatch* time — here `"v2"`, although
the event was tracked while the visit id was `"v1"` (the constructed event
carries no visit-id field at all, see `EventA`/`trackA`). -/
theorem visit_id_stamped_at_dispatch :
    (trackEventPayloadA (some "v2") (trackA "u1" 0 "click" [])).visit_id
        = some "v2" ∧
    (some "v2" : Option String) ≠ some "v1" := ⟨rfl, by decide⟩

/-- C5 (amended): in storage.js, `track` stamps `visit_id` with the visit
id current at call time and `trackEvent`'s payload preserves the stamped
value even after `setVisitId` reassigns the current visit id; in ahoy.js,
the payload's visit id is the one current at dispatch time (the returned
event has no visit-id field). -/
theorem visit_id_stamping :
    (∀ s uuid now name props,
      (trackB s uuid now name props).visit_id = s.visitId) ∧
    (∀ s e vid,
      (trackEventPayloadB (setVisitIdB s vid) e).base.visit_id = e.visit_id) ∧
    (∀ vid e, (trackEventPayloadA vid e).visit_id = vid) :=
  ⟨fun _ _ _ _ _ => rfl, fun _ _ _ => rfl, fun _ _ => rfl⟩

/-- C6 (counterexample): invoking a hook with no `onTracking` registered
throws in the storage.js variant instead of returning normally. -/
theorem hook_invoke_throws_counterexample :
    onTrackingInvokeB none "started" = .error "Please, specify onTracking" := rfl

/-- C6 (amended): ahoy.js's `onTrackingInvoke` never throws — an absent
`onTracking`, or a name outside its recognized list, is a silent no-op
(`failure` is not in ahoy.js's list, so it is silently skipped even when
registered), and a present non-function slot surfaces a console warning;
storage.js's `onTrackingInvoke` throws for a missing `onTracking` and for
any recognized-name slot that is not a function. -/
theorem hook_invocation_behaviour :
    (∀ ot call, ∃ o, onTrackingInvokeA ot call = .ok o) ∧
    (∀ h, onTrackingInvokeA (some h) "failure" = .ok InvokeOut.noop) ∧
    (∀ call, onTrackingInvokeB none call = .error "Please, specify onTracking") ∧
    (∀ h call, call ∈ onTrackingEventsB → getHook h call ≠ Slot.fn →
      onTrackingInvokeB (some h) call
        = .error ("onTracking[" ++ call ++ "] is not a function")) := by
  refine ⟨?_, ?_, fun call => rfl, ?_⟩
  · intro ot call
    cases ot with
    | none => exact ⟨.noop, rfl⟩
    | some h =>
      simp only [onTrackingInvokeA]
      by_cases hc : call ∈ onTrackingEventsA
      · rw [if_pos hc]
        cases hg : getHook h call <;> exact ⟨_, rfl⟩
      · rw [if_neg hc]
        exact ⟨.noop, rfl⟩
  · intro h
    have hns : ¬ ("failure" ∈ onTrackingEventsA) := by decide
    simp [onTrackingInvokeA, hns]
  · intro h call hin hne
    cases hg : getHook h call with
    | fn => exact absurd hg hne
    | absent => simp [onTrackingInvokeB, hin, hg]
    | notFn => simp [onTrackingInvokeB, hin, hg]

/-- C6 (witness): the storage.js throw instantiated at a concrete hooks
object with every slot absent, hypotheses discharged by evaluation. -/
theorem hook_invocation_behaviour_witness :
    onTrackingInvokeB (some allAbsentHooks) "failed"
      = .error ("onTracking[" ++ "failed" ++ "] is not a function") :=
  hook_invocation_behaviour.2.2.2 allAbsentHooks "failed" (by decide) (by decide)

/-- C7 (counterexample): with neither `trackUrls` nor `trackPosts`, an
ahoy.js delivery attempt resolves and fires the `succeeded` hook (the
config problem is only a console log), and a storage.js attempt fires the
`failure` hook — neither surfaces the configuration error through the
`error` hook the claim names. -/
theorem missing_config_no_error_hook :
    (deliveryAttemptA none none).1 = HookFired.succeededH ∧
    deliveryAttemptB true none none = HookFired.failureH := ⟨rfl, rfl⟩

/-- C7 (amended): job creation never consults the transport config (the
embedded `trackA`/`trackB` take none), so `track` still enqueues; with
neither `trackUrls` nor `trackPosts` an ahoy.js delivery attempt resolves
with only a console warning and therefore fires `succeeded`, while a
storage.js attempt rejects and fires `failure` (then `failed` at the
attempt ceiling); no attempt outcome ever fires the `error` hook. -/
theorem missing_config_attempt_outcomes :
    deliveryAttemptA none none
      = (HookFired.succeededH,
         some (TrackInvokeOut.consoleWarn "Please, specify trackUrls or trackPosts")) ∧
    (∀ b, deliveryAttemptB b none none = HookFired.failureH) ∧
    (∀ posts urls, (deliveryAttemptA posts urls).1 ≠ HookFired.errorH) ∧
    (∀ b posts urls, deliveryAttemptB b posts urls ≠ HookFired.errorH) := by
  refine ⟨rfl, ?_, ?_, ?_⟩
  · intro b; cases b <;> rfl
  · intro posts urls
    unfold deliveryAttemptA
    cases h : trackInvokeA posts urls "event" <;> simp
  · intro b posts urls
    unfold deliveryAttemptB
    cases b
    · simp
    · cases h : trackInvokeB posts urls "event" <;> simp [h]

/-- C9: the default URL transport never rejects — whatever the settlement
of the underlying `fetch` and of `resp.json()`, `fetchGuard`'s promise
resolves (with `undefined` when anything rejected, since the trailing
`catch` only logs). -/
theorem fetchGuard_always_resolves (fr : JsResult FetchResponse) :
    ∃ v, fetchGuard fr = JsResult.resolved v := by
  cases fr with
  | rejectedR e => exact ⟨none, rfl⟩
  | resolved r =>
    cases hj : r.jsonResult with
    | rejectedR e => exact ⟨none, by simp [fetchGuard, jthen, jcatchLog, hj]⟩
    | resolved v =>
      exact ⟨some (getResponse v), by simp [fetchGuard, jthen, jcatchLog, hj]⟩

/-- C8: a queue snapshot written with `saveEventQueue` and read back with
`loadEventQueue` round-trips losslessly for every sequence of
JSON-representable events and any prior store contents: the queue layer's
`JSON.stringify` and the storage layer's second `JSON.stringify` are
cancelled by the storage layer's `JSON.parse` and the queue layer's second
`JSON.parse`. -/
theorem save_load_roundtrip (st : Store) (q : List JsValue) :
    loadEventQueue (saveEventQueue st q) = .ok (.jarr q) := by
  have hne : jsTruthy (JsValue.jstr (encodeJsValue (JsValue.jarr q))) = true := by
    simp [jsTruthy, bne_iff_ne]
    exact encodeJsValue_ne_empty _
  unfold loadEventQueue saveEventQueue storageWrite storageRead
  rw [storeGet_storeSet]
  simp [parseJsValue_encodeJsValue, hne, jsCoerceString]

/-- C10: both property-key sanitizers are idempotent — stripping the
disallowed characters from an already-stripped key changes nothing. -/
theorem sanitize_key_idempotent (s : String) :
    sanitizeKeyAhoy (sanitizeKeyAhoy s) = sanitizeKeyAhoy s ∧
    sanitizeKeyStorage (sanitizeKeyStorage s) = sanitizeKeyStorage s := by
  constructor <;>
    simp [sanitizeKeyAhoy, sanitizeKeyStorage, List.filter_filter]
